import Mathlib

/-!
Shallow embedding of the proof-marketplace lifecycle engine
(`proof-marketplace/src/lib.rs`, `PicoProofMarketplace`) and proofs of its
specified properties.

Modelling conventions:
* `Uuid` and `SystemTime` are modelled as `Nat`; `Duration` is modelled as a
  whole number of seconds (`Duration::as_secs` is the identity, and the only
  duration comparison in the engine is against 3600 seconds).
* `u64`/`usize` arithmetic is modelled on `Nat`.  The source's additive
  counters would panic on overflow in the default build profile, so no wrapped
  value is observable on an `Ok` path; `saturating_sub` is exactly `Nat`
  subtraction.
* `f64` reputation scores are modelled as `Option ℚ`: `some q` is the finite
  value `q`, `none` stands for the non-finite results (NaN/inf) that a
  division by a zero `total_proofs` would produce.  Other `f64` fields that
  are always computed with a division-by-zero guard are plain `ℚ`.
* `HashMap` is modelled as an association list with lookup on the key and
  insert-or-replace; iteration order is irrelevant to every property proved
  here (sums, counts and existence checks only).
* Each `&mut self` method becomes a function `state → result × state` whose
  error paths return the state reached at the point of the early `return`,
  preserving the statement order of the source.
-/

namespace PicoMarket

abbrev Uuid := Nat

inductive Priority where
  | Low
  | Normal
  | High
  | Urgent
deriving DecidableEq

inductive RequestStatus where
  | Pending
  | InProgress
  | Completed
  | Failed
  | Cancelled
  | Expired
deriving DecidableEq

inductive BidStatus where
  | Active
  | Accepted
  | Rejected
  | Expired
  | Withdrawn
deriving DecidableEq

inductive PricingType where
  | Fixed
  | PerCycle
  | PerMB
  | Hybrid
  | Dynamic
deriving DecidableEq

structure PricingModel where
  model_type : PricingType
  base_price : Nat
  per_cycle_price : Nat
  per_mb_price : Nat
  priority_multiplier : List (String × ℚ)
  backend_multiplier : List (String × ℚ)
deriving DecidableEq

structure PerformanceStats where
  average_generation_time : Nat
  average_verification_time : Nat
  success_rate : ℚ
  throughput : ℚ
  max_concurrent_requests : Nat
  current_load : ℚ
  uptime_percentage : ℚ
deriving DecidableEq

structure ProofRequest where
  id : Uuid
  requester_id : String
  program_hash : String
  input_data : List Nat
  backend : String
  max_price : Nat
  deadline : Nat
  priority : Priority
  status : RequestStatus
  created_at : Nat
  metadata : List (String × String)
deriving DecidableEq

structure ProofResponse where
  id : Uuid
  request_id : Uuid
  prover_id : String
  proof_data : List Nat
  public_inputs : List Nat
  generation_time : Nat
  cycles : Nat
  memory_usage : Nat
  proof_size : Nat
  price : Nat
  submitted_at : Nat
  verified : Bool
deriving DecidableEq

structure ProverProfile where
  id : String
  name : String
  description : String
  supported_backends : List String
  supported_programs : List String
  pricing : PricingModel
  performance_stats : PerformanceStats
  reputation_score : Option ℚ
  total_proofs : Nat
  successful_proofs : Nat
  average_generation_time : Nat
  uptime : ℚ
  created_at : Nat
  verified : Bool
deriving DecidableEq

structure Bid where
  id : Uuid
  request_id : Uuid
  prover_id : String
  price : Nat
  estimated_time : Nat
  submitted_at : Nat
  status : BidStatus
deriving DecidableEq

structure VerificationResult where
  proof_id : Uuid
  valid : Bool
  verification_time : Nat
  verifier_id : String
  verified_at : Nat
  error_message : Option String
deriving DecidableEq

structure MarketplaceStats where
  total_requests : Nat
  total_proofs_generated : Nat
  active_provers : Nat
  average_proof_time : Nat
  average_price : Nat
  total_volume : Nat
  success_rate : ℚ
  last_updated : Nat
deriving DecidableEq

structure Marketplace where
  requests : List (Uuid × ProofRequest)
  responses : List (Uuid × ProofResponse)
  provers : List (String × ProverProfile)
  bids : List (Uuid × List Bid)
  verifications : List (Uuid × VerificationResult)
  stats : MarketplaceStats
deriving DecidableEq

/-- Association-list analogue of `HashMap::get`. -/
def lookupM {α β : Type} [DecidableEq α] (m : List (α × β)) (k : α) : Option β :=
  match m with
  | [] => none
  | (k2, v) :: rest => if k2 = k then some v else lookupM rest k

/-- Association-list analogue of `HashMap::insert` (replace or append). -/
def insertM {α β : Type} [DecidableEq α] (k : α) (v : β) : List (α × β) → List (α × β)
  | [] => [(k, v)]
  | (k2, v2) :: rest => if k2 = k then (k, v) :: rest else (k2, v2) :: insertM k v rest

/-- Association-list analogue of `HashMap::get_mut` followed by a mutation:
update the value at `k` in place, leave the map unchanged if `k` is absent. -/
def modifyM {α β : Type} [DecidableEq α] (k : α) (f : β → β) : List (α × β) → List (α × β)
  | [] => []
  | (k2, v2) :: rest => if k2 = k then (k2, f v2) :: rest else (k2, v2) :: modifyM k f rest

/-- The reputation assignment `(successful as f64 / total as f64) * 100.0`:
`none` models the non-finite float produced when `total = 0`. -/
def repFormula (successful total : Nat) : Option ℚ :=
  if total = 0 then none else some ((successful : ℚ) / (total : ℚ) * 100)

/-- `PicoProofMarketplace::new` (the wall-clock read becomes the `now` argument). -/
def mkMarketplace (now : Nat) : Marketplace :=
  { requests := []
    responses := []
    provers := []
    bids := []
    verifications := []
    stats :=
      { total_requests := 0
        total_proofs_generated := 0
        active_provers := 0
        average_proof_time := 0
        average_price := 0
        total_volume := 0
        success_rate := 0
        last_updated := now } }

/-- `PicoProofMarketplace::update_stats`. -/
def update_stats (now : Nat) (m : Marketplace) : Marketplace :=
  let s1 :=
    if m.responses.isEmpty then m.stats
    else
      { m.stats with
        average_proof_time :=
          (m.responses.map (fun kv => kv.2.generation_time)).sum / m.responses.length
        average_price :=
          (m.responses.map (fun kv => kv.2.price)).sum / m.responses.length
        success_rate :=
          ((m.responses.filter (fun kv => kv.2.verified)).length : ℚ)
            / (m.responses.length : ℚ) * 100 }
  { m with stats := { s1 with last_updated := now } }

/-- `PicoProofMarketplace::register_prover`. -/
def register_prover (m : Marketplace) (profile : ProverProfile) :
    Except String Unit × Marketplace :=
  if (lookupM m.provers profile.id).isSome then
    (Except.error "Prover already registered", m)
  else if profile.supported_backends.isEmpty then
    (Except.error "Prover must support at least one backend", m)
  else
    let provers2 := insertM profile.id profile m.provers
    (Except.ok (),
     { m with provers := provers2
              stats := { m.stats with active_provers := provers2.length } })

/-- `PicoProofMarketplace::submit_request` (both `SystemTime::now()` reads
become the `now` argument). -/
def submit_request (m : Marketplace) (now : Nat) (request : ProofRequest) :
    Except String Uuid × Marketplace :=
  if request.deadline ≤ now then
    (Except.error "Deadline must be in the future", m)
  else if request.input_data.isEmpty then
    (Except.error "Input data cannot be empty", m)
  else if (m.provers.filter
      (fun kv => kv.2.supported_backends.contains request.backend)).isEmpty then
    (Except.error ("No provers available for backend: " ++ request.backend), m)
  else
    (Except.ok request.id,
     { m with
        requests := insertM request.id request m.requests
        stats := { m.stats with
                    total_requests := m.stats.total_requests + 1
                    last_updated := now } })

/-- `PicoProofMarketplace::submit_bid`. -/
def submit_bid (m : Marketplace) (bid : Bid) : Except String Uuid × Marketplace :=
  match lookupM m.requests bid.request_id with
  | none => (Except.error "Request not found", m)
  | some request =>
    if request.status ≠ RequestStatus.Pending then
      (Except.error "Request is no longer accepting bids", m)
    else if bid.estimated_time > 3600 then
      (Except.error "Estimated time too long", m)
    else
      let old := (lookupM m.bids bid.request_id).getD []
      (Except.ok bid.id, { m with bids := insertM bid.request_id (old ++ [bid]) m.bids })

/-- The `find`-and-mutate step of `accept_bid`: the first bid whose id matches
is set `Accepted`, the rest of the list is untouched. -/
def setAccepted (bid_id : Uuid) : List Bid → List Bid
  | [] => []
  | b :: rest =>
    if b.id = bid_id then { b with status := BidStatus.Accepted } :: rest
    else b :: setAccepted bid_id rest

/-- The reject loop of `accept_bid`: every bid whose id differs from `bid_id`
is set `Rejected`; bids carrying `bid_id` itself are skipped. -/
def rejectOthers (bid_id : Uuid) (l : List Bid) : List Bid :=
  l.map (fun b => if b.id = bid_id then b else { b with status := BidStatus.Rejected })

/-- `PicoProofMarketplace::accept_bid`. -/
def accept_bid (m : Marketplace) (request_id bid_id : Uuid) :
    Except String Unit × Marketplace :=
  match lookupM m.requests request_id with
  | none => (Except.error "Request not found", m)
  | some request =>
    if request.status ≠ RequestStatus.Pending then
      (Except.error "Request is no longer accepting bids", m)
    else
      match lookupM m.bids request_id with
      | none => (Except.error "No bids found for request", m)
      | some bids0 =>
        if bids0.any (fun b => b.id == bid_id) then
          (Except.ok (),
           { m with
              requests := modifyM request_id
                (fun r => { r with status := RequestStatus.InProgress }) m.requests
              bids := insertM request_id (rejectOthers bid_id (setAccepted bid_id bids0)) m.bids })
        else
          (Except.error "Bid not found", m)

/-- `PicoProofMarketplace::submit_proof` (the `SystemTime::now()` read inside
`update_stats` becomes the `now` argument). -/
def submit_proof (m : Marketplace) (now : Nat) (response : ProofResponse) :
    Except String Uuid × Marketplace :=
  match lookupM m.requests response.request_id with
  | none => (Except.error "Request not found", m)
  | some request =>
    if request.status ≠ RequestStatus.InProgress then
      (Except.error "Request is not in progress", m)
    else if response.proof_data.isEmpty then
      (Except.error "Proof data cannot be empty", m)
    else
      let m1 :=
        { m with
           responses := insertM response.id response m.responses
           stats := { m.stats with
                       total_proofs_generated := m.stats.total_proofs_generated + 1
                       total_volume := m.stats.total_volume + response.price }
           requests := modifyM response.request_id
             (fun r => { r with status := RequestStatus.Completed }) m.requests
           provers := modifyM response.prover_id
             (fun p =>
               { p with
                  total_proofs := p.total_proofs + 1
                  successful_proofs := p.successful_proofs + 1
                  reputation_score :=
                    repFormula (p.successful_proofs + 1) (p.total_proofs + 1) }) m.provers }
      (Except.ok response.id, update_stats now m1)

/-- `PicoProofMarketplace::verify_proof`. -/
def verify_proof (m : Marketplace) (now : Nat) (proof_id : Uuid)
    (result : VerificationResult) : Except String Unit × Marketplace :=
  match lookupM m.responses proof_id with
  | none => (Except.error "Proof not found", m)
  | some response =>
    let m1 :=
      { m with
         responses := modifyM proof_id (fun r => { r with verified := result.valid }) m.responses
         verifications := insertM proof_id result m.verifications
         provers := modifyM response.prover_id
           (fun p =>
             let s := if result.valid then p.successful_proofs else p.successful_proofs - 1
             { p with
                successful_proofs := s
                reputation_score := repFormula s p.total_proofs }) m.provers }
    (Except.ok (), update_stats now m1)

/-- `PicoProofMarketplace::cancel_request`. -/
def cancel_request (m : Marketplace) (request_id : Uuid) (requester_id : String) :
    Except String Unit × Marketplace :=
  match lookupM m.requests request_id with
  | none => (Except.error "Request not found", m)
  | some request =>
    if request.requester_id ≠ requester_id then
      (Except.error "Unauthorized", m)
    else if request.status ≠ RequestStatus.Pending ∧
            request.status ≠ RequestStatus.InProgress then
      (Except.error "Cannot cancel request in current status", m)
    else
      (Except.ok (),
       { m with requests := modifyM request_id
                  (fun r => { r with status := RequestStatus.Cancelled }) m.requests })

/-- `PicoProofMarketplace::get_request_status`. -/
def get_request_status (m : Marketplace) (request_id : Uuid) : Option RequestStatus :=
  (lookupM m.requests request_id).map (fun r => r.status)

/-- One mutating call of the engine: the seven `&mut self` methods, with every
ambient `SystemTime::now()` read made an explicit argument. -/
inductive Op where
  | registerProver (profile : ProverProfile)
  | submitRequest (now : Nat) (request : ProofRequest)
  | submitBid (bid : Bid)
  | acceptBid (request_id bid_id : Uuid)
  | submitProof (now : Nat) (response : ProofResponse)
  | verifyProof (now : Nat) (proof_id : Uuid) (result : VerificationResult)
  | cancelRequest (request_id : Uuid) (requester_id : String)

/-- Run one operation, keeping its error-or-ok outcome (payloads dropped). -/
def runOp (op : Op) (m : Marketplace) : Except String Unit × Marketplace :=
  match op with
  | .registerProver p => register_prover m p
  | .submitRequest now r =>
      let x := submit_request m now r
      (x.1.map (fun _ => ()), x.2)
  | .submitBid b =>
      let x := submit_bid m b
      (x.1.map (fun _ => ()), x.2)
  | .acceptBid rid bid => accept_bid m rid bid
  | .submitProof now r =>
      let x := submit_proof m now r
      (x.1.map (fun _ => ()), x.2)
  | .verifyProof now pid res => verify_proof m now pid res
  | .cancelRequest rid req => cancel_request m rid req

/-- The state an operation leaves behind. -/
def applyOp (op : Op) (m : Marketplace) : Marketplace := (runOp op m).2

/-- Run a sequence of operations left to right. -/
def execOps (m : Marketplace) (ops : List Op) : Marketplace :=
  ops.foldl (fun s op => applyOp op s) m

/-- A marketplace state reachable from `new()` by engine calls. -/
def Reachable (m : Marketplace) : Prop :=
  ∃ now ops, execOps (mkMarketplace now) ops = m

/-- The responses recorded for a given request id. -/
def responsesFor (m : Marketplace) (request_id : Uuid) : List ProofResponse :=
  (m.responses.filter (fun kv => kv.2.request_id == request_id)).map (fun kv => kv.2)

/-- The status edges the specification allows for a stored request. -/
def allowedEdge : RequestStatus → RequestStatus → Prop
  | RequestStatus.Pending, RequestStatus.InProgress => True
  | RequestStatus.InProgress, RequestStatus.Completed => True
  | RequestStatus.Pending, RequestStatus.Cancelled => True
  | RequestStatus.InProgress, RequestStatus.Cancelled => True
  | _, _ => False

instance : DecidablePred (fun p : RequestStatus × RequestStatus => allowedEdge p.1 p.2) := by
  intro p
  rcases p with ⟨a, b⟩
  cases a <;> cases b <;> simp [allowedEdge] <;> infer_instance

/-! ### Map lemmas -/

theorem lookupM_insertM {α β : Type} [DecidableEq α] (k r : α) (v : β) (m : List (α × β)) :
    lookupM (insertM k v m) r = if k = r then some v else lookupM m r := by
  induction m with
  | nil => simp [insertM, lookupM]
  | cons kv rest ih =>
    rcases kv with ⟨k2, v2⟩
    by_cases h : k2 = k
    · subst h
      by_cases h2 : k2 = r <;> simp [insertM, lookupM, h2]
    · by_cases h2 : k2 = r
      · subst h2
        have hkr : ¬ k = k2 := fun he => h he.symm
        simp [insertM, lookupM, h, hkr]
      · simp [insertM, lookupM, h, h2, ih]

theorem lookupM_modifyM {α β : Type} [DecidableEq α] (k r : α) (f : β → β) (m : List (α × β)) :
    lookupM (modifyM k f m) r =
      if k = r then (lookupM m r).map f else lookupM m r := by
  induction m with
  | nil => simp [modifyM, lookupM]
  | cons kv rest ih =>
    rcases kv with ⟨k2, v2⟩
    by_cases h : k2 = k
    · subst h
      by_cases h2 : k2 = r <;> simp [modifyM, lookupM, h2]
    · by_cases h2 : k2 = r
      · subst h2
        have hkr : ¬ k = k2 := fun he => h he.symm
        simp [modifyM, lookupM, h, hkr]
      · simp [modifyM, lookupM, h, h2, ih]

theorem lookupM_modifyM_ne {α β : Type} [DecidableEq α] {k r : α} (f : β → β)
    (m : List (α × β)) (h : k ≠ r) : lookupM (modifyM k f m) r = lookupM m r := by
  simp [lookupM_modifyM, h]

theorem lookupM_insertM_ne {α β : Type} [DecidableEq α] {k r : α} (v : β)
    (m : List (α × β)) (h : k ≠ r) : lookupM (insertM k v m) r = lookupM m r := by
  simp [lookupM_insertM, h]

theorem isSome_lookupM_insertM {α β : Type} [DecidableEq α] (k r : α) (v : β)
    (m : List (α × β)) (h : (lookupM m r).isSome) :
    (lookupM (insertM k v m) r).isSome := by
  rw [lookupM_insertM]
  split <;> simp_all

theorem isSome_lookupM_modifyM {α β : Type} [DecidableEq α] (k r : α) (f : β → β)
    (m : List (α × β)) (h : (lookupM m r).isSome) :
    (lookupM (modifyM k f m) r).isSome := by
  rw [lookupM_modifyM]
  split <;> simp_all

theorem update_stats_requests (now : Nat) (m : Marketplace) :
    (update_stats now m).requests = m.requests := rfl

theorem update_stats_responses (now : Nat) (m : Marketplace) :
    (update_stats now m).responses = m.responses := rfl

theorem update_stats_provers (now : Nat) (m : Marketplace) :
    (update_stats now m).provers = m.provers := rfl

theorem update_stats_bids (now : Nat) (m : Marketplace) :
    (update_stats now m).bids = m.bids := rfl

/-! ### Concrete fixtures for witnesses and counterexamples -/

/-- A fixed pricing model for concrete states. -/
def pricing0 : PricingModel :=
  { model_type := PricingType.Fixed
    base_price := 10
    per_cycle_price := 0
    per_mb_price := 0
    priority_multiplier := []
    backend_multiplier := [] }

/-- Fixed performance stats for concrete states. -/
def perf0 : PerformanceStats :=
  { average_generation_time := 0
    average_verification_time := 0
    success_rate := 0
    throughput := 0
    max_concurrent_requests := 1
    current_load := 0
    uptime_percentage := 0 }

/-- A registered prover supporting the `koalabear` backend. -/
def proverBob : ProverProfile :=
  { id := "bob"
    name := "Bob"
    description := "prover"
    supported_backends := ["koalabear"]
    supported_programs := []
    pricing := pricing0
    performance_stats := perf0
    reputation_score := some 0
    total_proofs := 0
    successful_proofs := 0
    average_generation_time := 0
    uptime := 1
    created_at := 0
    verified := true }

/-- A second prover, registered with a stale reputation score of 42 and no
proofs; never referenced by any response. -/
def proverAlice : ProverProfile :=
  { proverBob with id := "alice", name := "Alice", reputation_score := some 42 }

/-- A concrete request with id 1, parameterised by its caller-supplied status. -/
def req1 (status : RequestStatus) : ProofRequest :=
  { id := 1
    requester_id := "carol"
    program_hash := "prog"
    input_data := [1, 2]
    backend := "koalabear"
    max_price := 100
    deadline := 1000
    priority := Priority.Normal
    status := status
    created_at := 0
    metadata := [] }

/-- A concrete bid on request 1, parameterised by id, prover, price and status. -/
def mkBid (bid_id : Uuid) (prover : String) (price : Nat) (status : BidStatus) : Bid :=
  { id := bid_id
    request_id := 1
    prover_id := prover
    price := price
    estimated_time := 60
    submitted_at := 0
    status := status }

/-- A concrete proof response for request 1, parameterised by its id. -/
def mkResp (resp_id : Uuid) : ProofResponse :=
  { id := resp_id
    request_id := 1
    prover_id := "bob"
    proof_data := [9]
    public_inputs := [3]
    generation_time := 7
    cycles := 11
    memory_usage := 13
    proof_size := 1
    price := 50
    submitted_at := 2
    verified := false }

/-- State with provers bob and alice registered. -/
def mReg : Marketplace :=
  (register_prover (register_prover (mkMarketplace 0) proverBob).2 proverAlice).2

/-- `mReg` plus request 1 submitted as Pending. -/
def mPend : Marketplace := (submit_request mReg 0 (req1 RequestStatus.Pending)).2

/-- `mPend` plus a single bid (id 5, bob) on request 1. -/
def mBid : Marketplace := (submit_bid mPend (mkBid 5 "bob" 40 BidStatus.Active)).2

/-- `mBid` with bid 5 accepted: request 1 is InProgress. -/
def mAcc : Marketplace := (accept_bid mBid 1 5).2

/-- `mAcc` plus a submitted proof (response id 7): request 1 is Completed. -/
def mDone : Marketplace := (submit_proof mAcc 3 (mkResp 7)).2

/-! ### Case-analysis lemmas: each operation either fully applies or fully
rejects, and the success branch is characterised explicitly. -/

theorem register_prover_cases (m : Marketplace) (p : ProverProfile) :
    ((register_prover m p).1.isOk = false ∧ (register_prover m p).2 = m) ∨
    ((register_prover m p).1 = Except.ok () ∧
       (register_prover m p).2 =
         { m with provers := insertM p.id p m.provers
                  stats := { m.stats with
                              active_provers := (insertM p.id p m.provers).length } }) := by
  unfold register_prover
  split
  · left
    exact ⟨rfl, rfl⟩
  · split
    · left
      exact ⟨rfl, rfl⟩
    · right
      exact ⟨rfl, rfl⟩

theorem submit_request_cases (m : Marketplace) (now : Nat) (r : ProofRequest) :
    ((submit_request m now r).1.isOk = false ∧ (submit_request m now r).2 = m) ∨
    (now < r.deadline ∧ r.input_data ≠ [] ∧
       (submit_request m now r).1 = Except.ok r.id ∧
       (submit_request m now r).2 =
         { m with requests := insertM r.id r m.requests
                  stats := { m.stats with
                              total_requests := m.stats.total_requests + 1
                              last_updated := now } }) := by
  unfold submit_request
  split
  · left
    exact ⟨rfl, rfl⟩
  next h1 =>
    split
    · left
      exact ⟨rfl, rfl⟩
    next h2 =>
      split
      · left
        exact ⟨rfl, rfl⟩
      · right
        refine ⟨Nat.lt_of_not_le h1, fun he => h2 (by simp [he]), rfl, rfl⟩

theorem submit_bid_cases (m : Marketplace) (b : Bid) :
    ((submit_bid m b).1.isOk = false ∧ (submit_bid m b).2 = m) ∨
    (∃ req, lookupM m.requests b.request_id = some req ∧
       req.status = RequestStatus.Pending ∧
       b.estimated_time ≤ 3600 ∧
       (submit_bid m b).1 = Except.ok b.id ∧
       (submit_bid m b).2 =
         { m with bids := insertM b.request_id
                    ((lookupM m.bids b.request_id).getD [] ++ [b]) m.bids }) := by
  unfold submit_bid
  split
  · left
    exact ⟨rfl, rfl⟩
  next req heq =>
    split
    · left
      exact ⟨rfl, rfl⟩
    next hst =>
      split
      · left
        exact ⟨rfl, rfl⟩
      next hdur =>
        right
        exact ⟨req, heq, not_not.mp hst, Nat.le_of_not_lt hdur, rfl, rfl⟩

theorem accept_bid_cases (m : Marketplace) (rid bid : Uuid) :
    ((accept_bid m rid bid).1.isOk = false ∧ (accept_bid m rid bid).2 = m) ∨
    (∃ request bids0,
       lookupM m.requests rid = some request ∧
       request.status = RequestStatus.Pending ∧
       lookupM m.bids rid = some bids0 ∧
       bids0.any (fun b => b.id == bid) = true ∧
       (accept_bid m rid bid).1 = Except.ok () ∧
       (accept_bid m rid bid).2 =
         { m with
            requests := modifyM rid
              (fun r => { r with status := RequestStatus.InProgress }) m.requests
            bids := insertM rid (rejectOthers bid (setAccepted bid bids0)) m.bids }) := by
  unfold accept_bid
  split
  · left
    exact ⟨rfl, rfl⟩
  next request heq =>
    split
    · left
      exact ⟨rfl, rfl⟩
    next hst =>
      split
      · left
        exact ⟨rfl, rfl⟩
      next bids0 heqb =>
        split
        next hany =>
          right
          exact ⟨request, bids0, heq, not_not.mp hst, heqb, hany, rfl, rfl⟩
        · left
          exact ⟨rfl, rfl⟩

theorem submit_proof_cases (m : Marketplace) (now : Nat) (resp : ProofResponse) :
    ((submit_proof m now resp).1.isOk = false ∧ (submit_proof m now resp).2 = m) ∨
    (∃ request,
       lookupM m.requests resp.request_id = some request ∧
       request.status = RequestStatus.InProgress ∧
       resp.proof_data ≠ [] ∧
       (submit_proof m now resp).1 = Except.ok resp.id ∧
       (submit_proof m now resp).2 = update_stats now
         { m with
            responses := insertM resp.id resp m.responses
            stats := { m.stats with
                        total_proofs_generated := m.stats.total_proofs_generated + 1
                        total_volume := m.stats.total_volume + resp.price }
            requests := modifyM resp.request_id
              (fun r => { r with status := RequestStatus.Completed }) m.requests
            provers := modifyM resp.prover_id
              (fun p =>
                { p with
                   total_proofs := p.total_proofs + 1
                   successful_proofs := p.successful_proofs + 1
                   reputation_score :=
                     repFormula (p.successful_proofs + 1) (p.total_proofs + 1) }) m.provers }) := by
  unfold submit_proof
  split
  · left
    exact ⟨rfl, rfl⟩
  next request heq =>
    split
    · left
      exact ⟨rfl, rfl⟩
    next hst =>
      split
      next hpd =>
        left
        exact ⟨rfl, rfl⟩
      next hpd =>
        right
        exact ⟨request, heq, not_not.mp hst, fun he => hpd (by simp [he]), rfl, rfl⟩

theorem verify_proof_cases (m : Marketplace) (now : Nat) (pid : Uuid)
    (res : VerificationResult) :
    ((verify_proof m now pid res).1 = Except.error "Proof not found" ∧
       (verify_proof m now pid res).2 = m ∧ lookupM m.responses pid = none) ∨
    (∃ resp, lookupM m.responses pid = some resp ∧
       (verify_proof m now pid res).1 = Except.ok () ∧
       (verify_proof m now pid res).2 = update_stats now
         { m with
            responses := modifyM pid (fun r => { r with verified := res.valid }) m.responses
            verifications := insertM pid res m.verifications
            provers := modifyM resp.prover_id
              (fun p =>
                { p with
                   successful_proofs :=
                     if res.valid then p.successful_proofs else p.successful_proofs - 1
                   reputation_score :=
                     repFormula
                       (if res.valid then p.successful_proofs else p.successful_proofs - 1)
                       p.total_proofs }) m.provers }) := by
  unfold verify_proof
  split
  next heq =>
    left
    exact ⟨rfl, rfl, heq⟩
  next resp heq =>
    right
    exact ⟨resp, heq, rfl, rfl⟩

theorem cancel_request_cases (m : Marketplace) (rid : Uuid) (requester : String) :
    ((cancel_request m rid requester).1.isOk = false ∧
       (cancel_request m rid requester).2 = m) ∨
    (∃ request,
       lookupM m.requests rid = some request ∧
       request.requester_id = requester ∧
       (request.status = RequestStatus.Pending ∨ request.status = RequestStatus.InProgress) ∧
       (cancel_request m rid requester).1 = Except.ok () ∧
       (cancel_request m rid requester).2 =
         { m with requests := modifyM rid
                    (fun r => { r with status := RequestStatus.Cancelled }) m.requests }) := by
  unfold cancel_request
  split
  · left
    exact ⟨rfl, rfl⟩
  next request heq =>
    split
    · left
      exact ⟨rfl, rfl⟩
    next hid =>
      split
      · left
        exact ⟨rfl, rfl⟩
      next hnot =>
        right
        have hstat : request.status = RequestStatus.Pending ∨
            request.status = RequestStatus.InProgress := by
          by_cases hp : request.status = RequestStatus.Pending
          · exact Or.inl hp
          · exact Or.inr (not_not.mp (fun hi => hnot ⟨hp, hi⟩))
        exact ⟨request, heq, not_not.mp hid, hstat, rfl, rfl⟩
/-! ### Operation plumbing -/

theorem except_map_error {α β γ : Type} {f : α → β} {x : Except γ α} {e : γ}
    (h : x.map f = Except.error e) : x = Except.error e := by
  cases x with
  | error a => simpa [Except.map] using h
  | ok a => simp [Except.map] at h

theorem applyOp_registerProver (p : ProverProfile) (m : Marketplace) :
    applyOp (Op.registerProver p) m = (register_prover m p).2 := rfl

theorem applyOp_submitRequest (now : Nat) (r : ProofRequest) (m : Marketplace) :
    applyOp (Op.submitRequest now r) m = (submit_request m now r).2 := rfl

theorem applyOp_submitBid (b : Bid) (m : Marketplace) :
    applyOp (Op.submitBid b) m = (submit_bid m b).2 := rfl

theorem applyOp_acceptBid (rid bid : Uuid) (m : Marketplace) :
    applyOp (Op.acceptBid rid bid) m = (accept_bid m rid bid).2 := rfl

theorem applyOp_submitProof (now : Nat) (r : ProofResponse) (m : Marketplace) :
    applyOp (Op.submitProof now r) m = (submit_proof m now r).2 := rfl

theorem applyOp_verifyProof (now : Nat) (pid : Uuid) (res : VerificationResult)
    (m : Marketplace) :
    applyOp (Op.verifyProof now pid res) m = (verify_proof m now pid res).2 := rfl

theorem applyOp_cancelRequest (rid : Uuid) (req : String) (m : Marketplace) :
    applyOp (Op.cancelRequest rid req) m = (cancel_request m rid req).2 := rfl

theorem execOps_cons (m : Marketplace) (op : Op) (ops : List Op) :
    execOps m (op :: ops) = execOps (applyOp op m) ops := rfl

/-- No operation removes an entry from the requests map. -/
theorem applyOp_keeps_request (op : Op) (m : Marketplace) (r : Uuid)
    (h : (lookupM m.requests r).isSome) :
    (lookupM (applyOp op m).requests r).isSome := by
  cases op with
  | registerProver p =>
      rw [applyOp_registerProver]
      rcases register_prover_cases m p with ⟨_, h2⟩ | ⟨_, h2⟩ <;> rw [h2] <;> exact h
  | submitRequest now req =>
      rw [applyOp_submitRequest]
      rcases submit_request_cases m now req with ⟨_, h2⟩ | ⟨_, _, _, h2⟩ <;> rw [h2]
      · exact h
      · exact isSome_lookupM_insertM _ _ _ _ h
  | submitBid b =>
      rw [applyOp_submitBid]
      rcases submit_bid_cases m b with ⟨_, h2⟩ | ⟨_, _, _, _, _, h2⟩ <;> rw [h2] <;> exact h
  | acceptBid rid bid =>
      rw [applyOp_acceptBid]
      rcases accept_bid_cases m rid bid with ⟨_, h2⟩ | ⟨_, _, _, _, _, _, _, h2⟩ <;> rw [h2]
      · exact h
      · exact isSome_lookupM_modifyM _ _ _ _ h
  | submitProof now resp =>
      rw [applyOp_submitProof]
      rcases submit_proof_cases m now resp with ⟨_, h2⟩ | ⟨_, _, _, _, _, h2⟩ <;> rw [h2]
      · exact h
      · rw [update_stats_requests]
        exact isSome_lookupM_modifyM _ _ _ _ h
  | verifyProof now pid res =>
      rw [applyOp_verifyProof]
      rcases verify_proof_cases m now pid res with ⟨_, h2, _⟩ | ⟨_, _, _, h2⟩ <;> rw [h2]
      · exact h
      · rw [update_stats_requests]
        exact h
  | cancelRequest rid req =>
      rw [applyOp_cancelRequest]
      rcases cancel_request_cases m rid req with ⟨_, h2⟩ | ⟨_, _, _, _, _, h2⟩ <;> rw [h2]
      · exact h
      · exact isSome_lookupM_modifyM _ _ _ _ h

/-! ### Error paths leave the state unchanged -/

theorem register_prover_error {m : Marketplace} {p : ProverProfile} {e : String}
    (h : (register_prover m p).1 = Except.error e) : (register_prover m p).2 = m := by
  rcases register_prover_cases m p with ⟨_, h2⟩ | ⟨hok, _⟩
  · exact h2
  · rw [h] at hok
    exact Except.noConfusion hok

theorem submit_request_error {m : Marketplace} {now : Nat} {r : ProofRequest} {e : String}
    (h : (submit_request m now r).1 = Except.error e) : (submit_request m now r).2 = m := by
  rcases submit_request_cases m now r with ⟨_, h2⟩ | ⟨_, _, hok, _⟩
  · exact h2
  · rw [h] at hok
    exact Except.noConfusion hok

theorem submit_bid_error {m : Marketplace} {b : Bid} {e : String}
    (h : (submit_bid m b).1 = Except.error e) : (submit_bid m b).2 = m := by
  rcases submit_bid_cases m b with ⟨_, h2⟩ | ⟨_, _, _, _, hok, _⟩
  · exact h2
  · rw [h] at hok
    exact Except.noConfusion hok

theorem accept_bid_error {m : Marketplace} {rid bid : Uuid} {e : String}
    (h : (accept_bid m rid bid).1 = Except.error e) : (accept_bid m rid bid).2 = m := by
  rcases accept_bid_cases m rid bid with ⟨_, h2⟩ | ⟨_, _, _, _, _, _, hok, _⟩
  · exact h2
  · rw [h] at hok
    exact Except.noConfusion hok

theorem submit_proof_error {m : Marketplace} {now : Nat} {r : ProofResponse} {e : String}
    (h : (submit_proof m now r).1 = Except.error e) : (submit_proof m now r).2 = m := by
  rcases submit_proof_cases m now r with ⟨_, h2⟩ | ⟨_, _, _, _, hok, _⟩
  · exact h2
  · rw [h] at hok
    exact Except.noConfusion hok

theorem verify_proof_error {m : Marketplace} {now : Nat} {pid : Uuid}
    {res : VerificationResult} {e : String}
    (h : (verify_proof m now pid res).1 = Except.error e) :
    (verify_proof m now pid res).2 = m := by
  rcases verify_proof_cases m now pid res with ⟨_, h2, _⟩ | ⟨_, _, hok, _⟩
  · exact h2
  · rw [h] at hok
    exact Except.noConfusion hok

theorem cancel_request_error {m : Marketplace} {rid : Uuid} {req : String} {e : String}
    (h : (cancel_request m rid req).1 = Except.error e) : (cancel_request m rid req).2 = m := by
  rcases cancel_request_cases m rid req with ⟨_, h2⟩ | ⟨_, _, _, _, hok, _⟩
  · exact h2
  · rw [h] at hok
    exact Except.noConfusion hok

/-- Claim C6: every engine operation that returns an error leaves the whole
marketplace state (requests, bids, responses, provers, verifications, stats)
exactly as it was before the call. -/
theorem C6_errors_are_total_rollbacks (op : Op) (m : Marketplace) (e : String)
    (h : (runOp op m).1 = Except.error e) : (runOp op m).2 = m := by
  cases op with
  | registerProver p => exact register_prover_error h
  | submitRequest now r => exact submit_request_error (except_map_error h)
  | submitBid b => exact submit_bid_error (except_map_error h)
  | acceptBid rid bid => exact accept_bid_error h
  | submitProof now r => exact submit_proof_error (except_map_error h)
  | verifyProof now pid res => exact verify_proof_error h
  | cancelRequest rid req => exact cancel_request_error h

/-- Witness for C6: accepting a bid on an unknown request fails with
"Request not found" and leaves the concrete state untouched. -/
theorem C6_witness :
    (runOp (Op.acceptBid 99 5) mPend).1 = Except.error "Request not found" ∧
    (runOp (Op.acceptBid 99 5) mPend).2 = mPend :=
  ⟨rfl, C6_errors_are_total_rollbacks (Op.acceptBid 99 5) mPend "Request not found" rfl⟩

/-- Claim C9: a request id stored by a successful `submit_request` is still
present after any further sequence of engine operations; no operation deletes
a request. -/
theorem C9_requests_never_deleted (m : Marketplace) (now : Nat) (request : ProofRequest)
    (h : (submit_request m now request).1.isOk) (ops : List Op) :
    (lookupM (execOps (submit_request m now request).2 ops).requests request.id).isSome := by
  have h0 : (lookupM (submit_request m now request).2.requests request.id).isSome := by
    rcases submit_request_cases m now request with ⟨hf, _⟩ | ⟨_, _, _, h2⟩
    · rw [hf] at h
      exact Bool.noConfusion h
    · rw [h2]
      simp [lookupM_insertM]
  generalize (submit_request m now request).2 = s at h0 ⊢
  induction ops generalizing s with
  | nil => exact h0
  | cons op rest ih =>
      rw [execOps_cons]
      exact ih _ (applyOp_keeps_request op s request.id h0)

/-- Witness for C9: the request submitted in the concrete pipeline is still
stored after the bid, acceptance and settlement operations. -/
theorem C9_witness :
    (submit_request mReg 0 (req1 RequestStatus.Pending)).1.isOk ∧
    (lookupM (execOps (submit_request mReg 0 (req1 RequestStatus.Pending)).2
        [Op.submitBid (mkBid 5 "bob" 40 BidStatus.Active), Op.acceptBid 1 5,
         Op.submitProof 3 (mkResp 7)]).requests (req1 RequestStatus.Pending).id).isSome :=
  ⟨by decide,
   C9_requests_never_deleted mReg 0 (req1 RequestStatus.Pending) (by decide)
     [Op.submitBid (mkBid 5 "bob" 40 BidStatus.Active), Op.acceptBid 1 5,
      Op.submitProof 3 (mkResp 7)]⟩

/-- Claim C10: `submit_bid` never compares the offered price to the owning
request's `max_price`; a bid on a Pending request with an estimate within one
hour is accepted even when its price exceeds the request's cap. -/
theorem C10_no_price_check (m : Marketplace) (b : Bid) (req : ProofRequest)
    (hreq : lookupM m.requests b.request_id = some req)
    (hst : req.status = RequestStatus.Pending)
    (hdur : b.estimated_time ≤ 3600)
    (hprice : req.max_price < b.price) :
    (submit_bid m b).1 = Except.ok b.id ∧
    lookupM (submit_bid m b).2.bids b.request_id =
      some ((lookupM m.bids b.request_id).getD [] ++ [b]) := by
  rcases submit_bid_cases m b with ⟨hf, _⟩ | ⟨req2, hreq2, _, _, hok, h2⟩
  · exfalso
    revert hf
    unfold submit_bid
    rw [hreq]
    simp [hst, Nat.not_lt.mpr hdur, Except.isOk, Except.toBool]
  · refine ⟨hok, ?_⟩
    rw [h2]
    simp [lookupM_insertM]

/-- Witness for C10: a bid of price 150 on a request capped at 100 is accepted. -/
theorem C10_witness :
    lookupM mPend.requests 1 = some (req1 RequestStatus.Pending) ∧
    (req1 RequestStatus.Pending).status = RequestStatus.Pending ∧
    (mkBid 6 "bob" 150 BidStatus.Active).estimated_time ≤ 3600 ∧
    (req1 RequestStatus.Pending).max_price < (mkBid 6 "bob" 150 BidStatus.Active).price ∧
    (submit_bid mPend (mkBid 6 "bob" 150 BidStatus.Active)).1 = Except.ok 6 :=
  ⟨by decide, by decide, by decide, by decide,
   (C10_no_price_check mPend (mkBid 6 "bob" 150 BidStatus.Active)
      (req1 RequestStatus.Pending) (by decide) (by decide) (by decide) (by decide)).1⟩
/-- A concrete verification outcome rejecting proof 7. -/
def vresFalse : VerificationResult :=
  { proof_id := 7
    valid := false
    verification_time := 1
    verifier_id := "v"
    verified_at := 4
    error_message := none }

/-- Claim C8: `verify_proof` fails with `NotFound` exactly when the proof id
is unknown; on a known proof it returns Ok, sets the stored response's
`verified` flag to `result.valid`, and when `valid = false` it decrements the
owning prover's `successful_proofs` by one with saturation at zero (`Nat`
subtraction models the source's `saturating_sub`, so the count never goes
below zero). -/
theorem C8_verify_proof_spec (m : Marketplace) (now : Nat) (proof_id : Uuid)
    (result : VerificationResult) :
    ((verify_proof m now proof_id result).1 = Except.error "Proof not found" ↔
       lookupM m.responses proof_id = none) ∧
    (∀ resp, lookupM m.responses proof_id = some resp →
       (verify_proof m now proof_id result).1 = Except.ok () ∧
       lookupM (verify_proof m now proof_id result).2.responses proof_id =
         some { resp with verified := result.valid } ∧
       (result.valid = false →
         ∀ p, lookupM m.provers resp.prover_id = some p →
           (lookupM (verify_proof m now proof_id result).2.provers resp.prover_id).map
             (fun q => q.successful_proofs) = some (p.successful_proofs - 1))) := by
  rcases verify_proof_cases m now proof_id result with
    ⟨herr, _, hnone⟩ | ⟨resp0, hsome, hok, hst⟩
  · refine ⟨⟨fun _ => hnone, fun _ => herr⟩, ?_⟩
    intro resp hresp
    rw [hnone] at hresp
    exact Option.noConfusion hresp
  · constructor
    · constructor
      · intro herr2
        rw [herr2] at hok
        exact Except.noConfusion hok
      · intro hnone2
        rw [hnone2] at hsome
        exact Option.noConfusion hsome
    · intro resp hresp
      have hre : resp0 = resp := by
        rw [hsome] at hresp
        exact (Option.some.injEq _ _).mp hresp
      subst hre
      refine ⟨hok, ?_, ?_⟩
      · rw [hst, update_stats_responses]
        simp [lookupM_modifyM, hsome]
      · intro hval p hp
        rw [hst, update_stats_provers]
        simp [lookupM_modifyM, hp, hval]

/-- Witness for C8: verifying the concrete settled proof 7 with `valid = false`
drops bob's successful-proof count from 1 back to 0. -/
theorem C8_witness :
    lookupM mDone.responses 7 = some (mkResp 7) ∧
    (lookupM (verify_proof mDone 4 7 vresFalse).2.provers "bob").map
      (fun q => q.successful_proofs) = some 0 := by
  refine ⟨by decide, ?_⟩
  rcases hp : lookupM mDone.provers "bob" with _ | p
  · have hs : (lookupM mDone.provers "bob").isSome = true := by decide
    rw [hp] at hs
    exact Bool.noConfusion hs
  · have h := ((C8_verify_proof_spec mDone 4 7 vresFalse).2 (mkResp 7) (by decide)).2.2
      rfl p hp
    simp only [mkResp] at h
    rw [h]
    have h2 : (lookupM mDone.provers "bob").map (fun q => q.successful_proofs) = some 1 := by
      decide
    rw [hp] at h2
    simp at h2
    simp [h2]
/-- Counterexample to C3 as stated: from a reachable state, a request whose
`status` field is `Completed` passes every `submit_request` check, returns Ok,
and is stored with status `Completed` — the code never forces the stored
status to Pending. -/
theorem C3_counterexample :
    Reachable mReg ∧
    (submit_request mReg 0 (req1 RequestStatus.Completed)).1 = Except.ok 1 ∧
    get_request_status (submit_request mReg 0 (req1 RequestStatus.Completed)).2 1 =
      some RequestStatus.Completed ∧
    RequestStatus.Completed ≠ RequestStatus.Pending :=
  ⟨⟨0, [Op.registerProver proverBob, Op.registerProver proverAlice], rfl⟩,
   rfl, by decide, by decide⟩

/-- Claim C3 (amended): `submit_request` fails with the deadline error when
the deadline is not strictly after `now`, then with the empty-input error on
an empty payload, then with the no-prover error when no registered prover
supports the backend; otherwise it returns the request id, stores the request
exactly as given (its status field is the caller's, Pending exactly when the
caller set it Pending), and increments the total-request counter by one. -/
theorem C3_submit_request_spec (m : Marketplace) (now : Nat) (request : ProofRequest) :
    (request.deadline ≤ now →
       submit_request m now request = (Except.error "Deadline must be in the future", m)) ∧
    (now < request.deadline → request.input_data = [] →
       submit_request m now request = (Except.error "Input data cannot be empty", m)) ∧
    (now < request.deadline → request.input_data ≠ [] →
       (∀ kv ∈ m.provers, request.backend ∉ kv.2.supported_backends) →
       submit_request m now request =
         (Except.error ("No provers available for backend: " ++ request.backend), m)) ∧
    (now < request.deadline → request.input_data ≠ [] →
       (∃ kv ∈ m.provers, request.backend ∈ kv.2.supported_backends) →
       (submit_request m now request).1 = Except.ok request.id ∧
       lookupM (submit_request m now request).2.requests request.id = some request ∧
       get_request_status (submit_request m now request).2 request.id =
         some request.status ∧
       (submit_request m now request).2.stats.total_requests =
         m.stats.total_requests + 1) := by
  refine ⟨?_, ?_, ?_, ?_⟩
  · intro h
    unfold submit_request
    simp [h]
  · intro h1 h2
    unfold submit_request
    simp [Nat.not_le.mpr h1, h2]
  · intro h1 h2 h3
    have hemp : (m.provers.filter
        (fun kv => kv.2.supported_backends.contains request.backend)) = [] := by
      rw [List.filter_eq_nil]
      intro kv hkv
      simpa using h3 kv hkv
    have hinput : ¬ (request.input_data.isEmpty = true) := by
      simpa [List.isEmpty_iff] using h2
    unfold submit_request
    rw [if_neg (Nat.not_le.mpr h1), if_neg hinput, if_pos (List.isEmpty_iff.mpr hemp)]
  · intro h1 h2 h3
    obtain ⟨kv, hkv, hin⟩ := h3
    have hne : (m.provers.filter
        (fun kv => kv.2.supported_backends.contains request.backend)) ≠ [] := by
      apply List.ne_nil_of_mem (a := kv)
      rw [List.mem_filter]
      exact ⟨hkv, by simpa using hin⟩
    have hinput : ¬ (request.input_data.isEmpty = true) := by
      simpa [List.isEmpty_iff] using h2
    have hfilter : ¬ ((m.provers.filter
        (fun kv => kv.2.supported_backends.contains request.backend)).isEmpty = true) := by
      simpa [List.isEmpty_iff] using hne
    unfold submit_request
    rw [if_neg (Nat.not_le.mpr h1), if_neg hinput, if_neg hfilter]
    refine ⟨rfl, ?_, ?_, rfl⟩
    · simp [lookupM_insertM]
    · simp [get_request_status, lookupM_insertM]

/-- Witness for the amended C3: the concrete Pending request is admitted,
stored unchanged, and the request counter moves from 0 to 1. -/
theorem C3_witness :
    0 < (req1 RequestStatus.Pending).deadline ∧
    (req1 RequestStatus.Pending).input_data ≠ [] ∧
    (∃ kv ∈ mReg.provers, (req1 RequestStatus.Pending).backend ∈ kv.2.supported_backends) ∧
    (submit_request mReg 0 (req1 RequestStatus.Pending)).1 = Except.ok 1 ∧
    get_request_status mPend 1 = some RequestStatus.Pending ∧
    mPend.stats.total_requests = mReg.stats.total_requests + 1 := by
  have h := (C3_submit_request_spec mReg 0 (req1 RequestStatus.Pending)).2.2.2
    (by decide) (by decide) ⟨("bob", proverBob), by decide, by decide⟩
  exact ⟨by decide, by decide, ⟨("bob", proverBob), by decide, by decide⟩,
    h.1, h.2.2.1, h.2.2.2⟩

/-- Counterexample to C5 as stated: from a reachable state, a bid submitted
with status `Withdrawn` is appended to the request's bid list carrying status
`Withdrawn` — the code never forces the appended bid's status to Active. -/
theorem C5_counterexample :
    Reachable mPend ∧
    (submit_bid mPend (mkBid 6 "bob" 40 BidStatus.Withdrawn)).1 = Except.ok 6 ∧
    ((lookupM (submit_bid mPend (mkBid 6 "bob" 40 BidStatus.Withdrawn)).2.bids 1).getD
        []).map (fun b => b.status) = [BidStatus.Withdrawn] ∧
    BidStatus.Withdrawn ≠ BidStatus.Active :=
  ⟨⟨0, [Op.registerProver proverBob, Op.registerProver proverAlice,
        Op.submitRequest 0 (req1 RequestStatus.Pending)], rfl⟩,
   rfl, by decide, by decide⟩

/-- Claim C5 (amended): `submit_bid` fails with `NotFound` on an unknown
request, with `RequestClosed` when the request is not Pending, with
`EstimateTooLong` when the estimate exceeds 3600 seconds; otherwise it appends
the bid exactly as given (its status field is the caller's, Active exactly
when the caller set it Active) to that request's bid list, with no uniqueness
constraint on the bidding prover. -/
theorem C5_submit_bid_spec (m : Marketplace) (bid : Bid) :
    (lookupM m.requests bid.request_id = none →
       submit_bid m bid = (Except.error "Request not found", m)) ∧
    (∀ req, lookupM m.requests bid.request_id = some req →
       req.status ≠ RequestStatus.Pending →
       submit_bid m bid = (Except.error "Request is no longer accepting bids", m)) ∧
    (∀ req, lookupM m.requests bid.request_id = some req →
       req.status = RequestStatus.Pending → 3600 < bid.estimated_time →
       submit_bid m bid = (Except.error "Estimated time too long", m)) ∧
    (∀ req, lookupM m.requests bid.request_id = some req →
       req.status = RequestStatus.Pending → bid.estimated_time ≤ 3600 →
       (submit_bid m bid).1 = Except.ok bid.id ∧
       lookupM (submit_bid m bid).2.bids bid.request_id =
         some ((lookupM m.bids bid.request_id).getD [] ++ [bid])) := by
  refine ⟨?_, ?_, ?_, ?_⟩
  · intro h
    unfold submit_bid
    rw [h]
  · intro req hreq hst
    unfold submit_bid
    rw [hreq]
    simp [hst]
  · intro req hreq hst hdur
    unfold submit_bid
    rw [hreq]
    simp [hst, hdur]
  · intro req hreq hst hdur
    unfold submit_bid
    rw [hreq]
    simp [hst, Nat.not_lt.mpr hdur, lookupM_insertM]

/-- Witness for the amended C5: the concrete Active bid is appended unchanged
to request 1's empty bid list. -/
theorem C5_witness :
    lookupM mPend.requests 1 = some (req1 RequestStatus.Pending) ∧
    (req1 RequestStatus.Pending).status = RequestStatus.Pending ∧
    (mkBid 5 "bob" 40 BidStatus.Active).estimated_time ≤ 3600 ∧
    (submit_bid mPend (mkBid 5 "bob" 40 BidStatus.Active)).1 = Except.ok 5 ∧
    lookupM mBid.bids 1 = some [mkBid 5 "bob" 40 BidStatus.Active] := by
  have h := (C5_submit_bid_spec mPend (mkBid 5 "bob" 40 BidStatus.Active)).2.2.2
    (req1 RequestStatus.Pending) (by decide) (by decide) (by decide)
  exact ⟨by decide, by decide, by decide, h.1, h.2⟩
/-! ### Bid-list lemmas for bid acceptance -/

theorem mem_setAccepted_eq_status (bid_id : Uuid) (l : List Bid)
    (hnd : (l.map (fun b => b.id)).Nodup) :
    ∀ b2 ∈ setAccepted bid_id l, b2.id = bid_id → b2.status = BidStatus.Accepted := by
  induction l with
  | nil =>
      intro b2 hb2 _
      exact absurd hb2 (List.not_mem_nil b2)
  | cons b rest ih =>
      intro b2 hb2 hid
      have hnd2 : ((b :: rest).map (fun b => b.id)).Nodup := hnd
      rw [List.map_cons, List.nodup_cons] at hnd2
      unfold setAccepted at hb2
      by_cases h : b.id = bid_id
      · rw [if_pos h] at hb2
        rcases List.mem_cons.mp hb2 with hb2 | hb2
        · rw [hb2]
        · exfalso
          apply hnd2.1
          have hmm : b2.id ∈ rest.map (fun b => b.id) := List.mem_map_of_mem _ hb2
          rw [hid] at hmm
          rw [h]
          exact hmm
      · rw [if_neg h] at hb2
        rcases List.mem_cons.mp hb2 with hb2 | hb2
        · rw [hb2] at hid
          exact absurd hid h
        · exact ih hnd2.2 b2 hb2 hid

theorem mem_setAccepted_exists (bid_id : Uuid) (l : List Bid)
    (hany : l.any (fun b => b.id == bid_id) = true) :
    ∃ b2 ∈ setAccepted bid_id l, b2.id = bid_id := by
  induction l with
  | nil => simp at hany
  | cons b rest ih =>
      unfold setAccepted
      by_cases h : b.id = bid_id
      · rw [if_pos h]
        exact ⟨{ b with status := BidStatus.Accepted }, List.mem_cons_self _ _, h⟩
      · rw [if_neg h]
        have hrest : rest.any (fun b => b.id == bid_id) = true := by
          simpa [h] using hany
        obtain ⟨b2, hb2, hid⟩ := ih hrest
        exact ⟨b2, List.mem_cons_of_mem _ hb2, hid⟩

theorem mem_rejectOthers_of_id (bid_id : Uuid) (l : List Bid) (b2 : Bid)
    (hb2 : b2 ∈ l) (hid : b2.id = bid_id) : b2 ∈ rejectOthers bid_id l := by
  unfold rejectOthers
  have h : (if b2.id = bid_id then b2 else { b2 with status := BidStatus.Rejected }) = b2 :=
    if_pos hid
  exact h ▸ List.mem_map_of_mem _ hb2

theorem setAccepted_map_id (bid_id : Uuid) (l : List Bid) :
    (setAccepted bid_id l).map (fun b => b.id) = l.map (fun b => b.id) := by
  induction l with
  | nil => rfl
  | cons b rest ih =>
      unfold setAccepted
      by_cases h : b.id = bid_id
      · rw [if_pos h]
        simp
      · rw [if_neg h]
        simp [ih]

theorem final_list_spec (bid_id : Uuid) (l : List Bid)
    (hnd : (l.map (fun b => b.id)).Nodup) :
    ∀ b2 ∈ rejectOthers bid_id (setAccepted bid_id l),
      (b2.id = bid_id → b2.status = BidStatus.Accepted) ∧
      (b2.id ≠ bid_id → b2.status = BidStatus.Rejected) := by
  intro b2 hb2
  unfold rejectOthers at hb2
  rcases List.mem_map.mp hb2 with ⟨a, ha, hEq⟩
  by_cases haid : a.id = bid_id
  · rw [if_pos haid] at hEq
    subst hEq
    refine ⟨fun _ => ?_, fun hne => absurd haid hne⟩
    exact mem_setAccepted_eq_status bid_id l hnd a ha haid
  · rw [if_neg haid] at hEq
    subst hEq
    exact ⟨fun hid => absurd hid haid, fun _ => rfl⟩

/-- The second bid sharing id 5 (submitted by alice) on top of `mBid`. -/
def mDup : Marketplace := (submit_bid mBid (mkBid 5 "alice" 45 BidStatus.Active)).2

/-- Counterexample to C1 as stated: in a reachable state two bids on request 1
share id 5; `accept_bid 1 5` returns Ok, marks the first one Accepted and
leaves the duplicate Active — so not every other bid in the list is Rejected. -/
theorem C1_counterexample :
    Reachable mDup ∧
    (accept_bid mDup 1 5).1 = Except.ok () ∧
    ((lookupM (accept_bid mDup 1 5).2.bids 1).getD []).map
        (fun b => (b.prover_id, b.status)) =
      [("bob", BidStatus.Accepted), ("alice", BidStatus.Active)] ∧
    BidStatus.Active ≠ BidStatus.Rejected :=
  ⟨⟨0, [Op.registerProver proverBob, Op.registerProver proverAlice,
        Op.submitRequest 0 (req1 RequestStatus.Pending),
        Op.submitBid (mkBid 5 "bob" 40 BidStatus.Active),
        Op.submitBid (mkBid 5 "alice" 45 BidStatus.Active)], rfl⟩,
   rfl, by decide, by decide⟩

/-- Claim C1 (amended): provided no two bids on the request share an id, a
successful `accept_bid(request_id, bid_id)` leaves the bid with id `bid_id`
Accepted, every other bid on that request Rejected, the request InProgress,
and the bid lists of all other requests unchanged. -/
theorem C1_accept_bid_spec (m : Marketplace) (request_id bid_id : Uuid)
    (hnd : (((lookupM m.bids request_id).getD []).map (fun b => b.id)).Nodup)
    (hok : (accept_bid m request_id bid_id).1 = Except.ok ()) :
    ∃ l, lookupM (accept_bid m request_id bid_id).2.bids request_id = some l ∧
      (∃ b ∈ l, b.id = bid_id ∧ b.status = BidStatus.Accepted) ∧
      (∀ b ∈ l, b.id = bid_id → b.status = BidStatus.Accepted) ∧
      (∀ b ∈ l, b.id ≠ bid_id → b.status = BidStatus.Rejected) ∧
      get_request_status (accept_bid m request_id bid_id).2 request_id =
        some RequestStatus.InProgress ∧
      (∀ r, r ≠ request_id →
        lookupM (accept_bid m request_id bid_id).2.bids r = lookupM m.bids r) := by
  rcases accept_bid_cases m request_id bid_id with
    ⟨hf, _⟩ | ⟨request, bids0, hreq, hst, hb, hany, _, h2⟩
  · rw [hok] at hf
    exact Bool.noConfusion hf
  · rw [hb] at hnd
    simp only [Option.getD_some] at hnd
    refine ⟨rejectOthers bid_id (setAccepted bid_id bids0), ?_, ?_, ?_, ?_, ?_, ?_⟩
    · rw [h2]
      simp [lookupM_insertM]
    · obtain ⟨b2, hb2, hid⟩ := mem_setAccepted_exists bid_id bids0 hany
      refine ⟨b2, mem_rejectOthers_of_id bid_id _ b2 hb2 hid, hid, ?_⟩
      exact mem_setAccepted_eq_status bid_id bids0 hnd b2 hb2 hid
    · intro b hbmem hid
      exact (final_list_spec bid_id bids0 hnd b hbmem).1 hid
    · intro b hbmem hne
      exact (final_list_spec bid_id bids0 hnd b hbmem).2 hne
    · rw [h2]
      simp [get_request_status, lookupM_modifyM, hreq]
    · intro r hr
      rw [h2]
      exact lookupM_insertM_ne _ _ (fun he => hr he.symm)

/-- Witness for the amended C1: the single-bid list has distinct ids, the
acceptance succeeds and the request moves to InProgress. -/
theorem C1_witness :
    (((lookupM mBid.bids 1).getD []).map (fun b => b.id)).Nodup ∧
    (accept_bid mBid 1 5).1 = Except.ok () ∧
    get_request_status mAcc 1 = some RequestStatus.InProgress := by
  obtain ⟨l, _, _, _, _, hstat, _⟩ := C1_accept_bid_spec mBid 1 5 (by decide) rfl
  exact ⟨by decide, rfl, hstat⟩
/-- The operation trace that builds `mDone` from a fresh marketplace. -/
def opsDone : List Op :=
  [Op.registerProver proverBob, Op.registerProver proverAlice,
   Op.submitRequest 0 (req1 RequestStatus.Pending),
   Op.submitBid (mkBid 5 "bob" 40 BidStatus.Active),
   Op.acceptBid 1 5,
   Op.submitProof 3 (mkResp 7)]

/-- Counterexample to C2 as stated: `mDone` is reachable and holds request 1
as Completed; calling `submit_request` again with the same id succeeds and
overwrites the stored request, moving its status from Completed back to
Pending, which is not one of the allowed edges. -/
theorem C2_counterexample :
    Reachable mDone ∧
    get_request_status mDone 1 = some RequestStatus.Completed ∧
    (runOp (Op.submitRequest 0 (req1 RequestStatus.Pending)) mDone).1 = Except.ok () ∧
    get_request_status (applyOp (Op.submitRequest 0 (req1 RequestStatus.Pending)) mDone) 1 =
      some RequestStatus.Pending ∧
    ¬ allowedEdge RequestStatus.Completed RequestStatus.Pending :=
  ⟨⟨0, opsDone, rfl⟩, by decide, rfl, by decide, fun h => h⟩

/-- Claim C2 (amended): provided `submit_request` is never called with the id
of an already-stored request (such a call overwrites the stored request
wholesale and can set any status), every operation changes each stored
request's status only along Pending→InProgress, InProgress→Completed,
Pending→Cancelled or InProgress→Cancelled, or leaves it unchanged. -/
theorem C2_status_transitions (m : Marketplace) (op : Op) (r : Uuid)
    (hfresh : ∀ now req, op = Op.submitRequest now req → lookupM m.requests req.id = none)
    (st st2 : RequestStatus)
    (h1 : (lookupM m.requests r).map (fun q => q.status) = some st)
    (h2 : (lookupM (applyOp op m).requests r).map (fun q => q.status) = some st2) :
    st2 = st ∨ allowedEdge st st2 := by
  cases op with
  | registerProver p =>
      rw [applyOp_registerProver] at h2
      rcases register_prover_cases m p with ⟨_, hs⟩ | ⟨_, hs⟩ <;> rw [hs] at h2 <;>
        exact Or.inl (Option.some.inj (h1.symm.trans h2)).symm
  | submitRequest now req =>
      rw [applyOp_submitRequest] at h2
      rcases submit_request_cases m now req with ⟨_, hs⟩ | ⟨_, _, _, hs⟩
      · rw [hs] at h2
        exact Or.inl (Option.some.inj (h1.symm.trans h2)).symm
      · rw [hs] at h2
        have h2b : (lookupM (insertM req.id req m.requests) r).map (fun q => q.status) =
            some st2 := h2
        rw [lookupM_insertM] at h2b
        by_cases he : req.id = r
        · have hn := hfresh now req rfl
          rw [he] at hn
          rw [hn] at h1
          simp at h1
        · rw [if_neg he] at h2b
          exact Or.inl (Option.some.inj (h1.symm.trans h2b)).symm
  | submitBid b =>
      rw [applyOp_submitBid] at h2
      rcases submit_bid_cases m b with ⟨_, hs⟩ | ⟨_, _, _, _, _, hs⟩ <;> rw [hs] at h2 <;>
        exact Or.inl (Option.some.inj (h1.symm.trans h2)).symm
  | acceptBid rid bid =>
      rw [applyOp_acceptBid] at h2
      rcases accept_bid_cases m rid bid with
        ⟨_, hs⟩ | ⟨request, bids0, hreq, hst, _, _, _, hs⟩
      · rw [hs] at h2
        exact Or.inl (Option.some.inj (h1.symm.trans h2)).symm
      · rw [hs] at h2
        have h2b : (lookupM (modifyM rid
            (fun q => { q with status := RequestStatus.InProgress }) m.requests) r).map
            (fun q => q.status) = some st2 := h2
        rw [lookupM_modifyM] at h2b
        by_cases hr : rid = r
        · rw [if_pos hr] at h2b
          rw [hr] at hreq
          rw [hreq] at h1 h2b
          simp at h1 h2b
          right
          rw [← h1, hst, ← h2b]
          trivial
        · rw [if_neg hr] at h2b
          exact Or.inl (Option.some.inj (h1.symm.trans h2b)).symm
  | submitProof now resp =>
      rw [applyOp_submitProof] at h2
      rcases submit_proof_cases m now resp with ⟨_, hs⟩ | ⟨request, hreq, hst, _, _, hs⟩
      · rw [hs] at h2
        exact Or.inl (Option.some.inj (h1.symm.trans h2)).symm
      · rw [hs, update_stats_requests] at h2
        have h2b : (lookupM (modifyM resp.request_id
            (fun q => { q with status := RequestStatus.Completed }) m.requests) r).map
            (fun q => q.status) = some st2 := h2
        rw [lookupM_modifyM] at h2b
        by_cases hr : resp.request_id = r
        · rw [if_pos hr] at h2b
          rw [hr] at hreq
          rw [hreq] at h1 h2b
          simp at h1 h2b
          right
          rw [← h1, hst, ← h2b]
          trivial
        · rw [if_neg hr] at h2b
          exact Or.inl (Option.some.inj (h1.symm.trans h2b)).symm
  | verifyProof now pid res =>
      rw [applyOp_verifyProof] at h2
      rcases verify_proof_cases m now pid res with ⟨_, hs, _⟩ | ⟨_, _, _, hs⟩
      · rw [hs] at h2
        exact Or.inl (Option.some.inj (h1.symm.trans h2)).symm
      · rw [hs, update_stats_requests] at h2
        exact Or.inl (Option.some.inj (h1.symm.trans h2)).symm
  | cancelRequest rid requester =>
      rw [applyOp_cancelRequest] at h2
      rcases cancel_request_cases m rid requester with
        ⟨_, hs⟩ | ⟨request, hreq, _, hstat, _, hs⟩
      · rw [hs] at h2
        exact Or.inl (Option.some.inj (h1.symm.trans h2)).symm
      · rw [hs] at h2
        have h2b : (lookupM (modifyM rid
            (fun q => { q with status := RequestStatus.Cancelled }) m.requests) r).map
            (fun q => q.status) = some st2 := h2
        rw [lookupM_modifyM] at h2b
        by_cases hr : rid = r
        · rw [if_pos hr] at h2b
          rw [hr] at hreq
          rw [hreq] at h1 h2b
          simp at h1 h2b
          right
          rw [← h1, ← h2b]
          rcases hstat with hp | hp <;> rw [hp] <;> trivial
        · rw [if_neg hr] at h2b
          exact Or.inl (Option.some.inj (h1.symm.trans h2b)).symm

/-- Witness for the amended C2: accepting bid 5 moves request 1 from Pending
to InProgress, an allowed edge. -/
theorem C2_witness :
    (lookupM mBid.requests 1).map (fun q => q.status) = some RequestStatus.Pending ∧
    (lookupM (applyOp (Op.acceptBid 1 5) mBid).requests 1).map (fun q => q.status) =
      some RequestStatus.InProgress ∧
    (RequestStatus.InProgress = RequestStatus.Pending ∨
      allowedEdge RequestStatus.Pending RequestStatus.InProgress) :=
  ⟨by decide, by decide,
   C2_status_transitions mBid (Op.acceptBid 1 5) 1
     (fun _ _ h => Op.noConfusion h) RequestStatus.Pending RequestStatus.InProgress
     (by decide) (by decide)⟩
/-- Counterexample to C4 as stated: in the reachable state `mAcc`, alice is a
registered prover with `total_proofs = 0` and a stale stored reputation of 42.
After bob's successful `submit_proof`, alice's profile is still in the ledger
with `total_proofs = 0` and `reputation_score = some 42`, not the claimed 0. -/
theorem C4_counterexample :
    Reachable mAcc ∧
    (submit_proof mAcc 3 (mkResp 7)).1 = Except.ok 7 ∧
    (lookupM (submit_proof mAcc 3 (mkResp 7)).2.provers "alice").map
        (fun p => (p.total_proofs, p.reputation_score)) = some (0, some 42) ∧
    some (42 : ℚ) ≠ some (0 : ℚ) :=
  ⟨⟨0, [Op.registerProver proverBob, Op.registerProver proverAlice,
        Op.submitRequest 0 (req1 RequestStatus.Pending),
        Op.submitBid (mkBid 5 "bob" 40 BidStatus.Active),
        Op.acceptBid 1 5], rfl⟩,
   rfl, by decide, by decide⟩

/-- Claim C4 (amended): after every successful `submit_proof` and after every
`verify_proof` on a known proof, the prover profile referenced by the affected
response — when registered — has `reputation_score` recomputed as
`successful_proofs / total_proofs * 100` (with `total_proofs > 0` after
`submit_proof`; a `verify_proof` hitting a prover with `total_proofs = 0`
stores the non-finite zero-division value, modelled as `none`).  All other
prover profiles are left exactly as they were, so a stale reputation stored at
registration persists untouched. -/
theorem C4_reputation_recomputed :
    (∀ (m : Marketplace) (now : Nat) (resp : ProofResponse),
       (submit_proof m now resp).1 = Except.ok resp.id →
       (∀ pid, pid ≠ resp.prover_id →
          lookupM (submit_proof m now resp).2.provers pid = lookupM m.provers pid) ∧
       (∀ p, lookupM m.provers resp.prover_id = some p →
          ∃ q, lookupM (submit_proof m now resp).2.provers resp.prover_id = some q ∧
            q.total_proofs = p.total_proofs + 1 ∧
            q.successful_proofs = p.successful_proofs + 1 ∧
            0 < q.total_proofs ∧
            q.reputation_score = repFormula q.successful_proofs q.total_proofs)) ∧
    (∀ (m : Marketplace) (now : Nat) (pid2 : Uuid) (res : VerificationResult)
       (resp : ProofResponse), lookupM m.responses pid2 = some resp →
       (∀ pid, pid ≠ resp.prover_id →
          lookupM (verify_proof m now pid2 res).2.provers pid = lookupM m.provers pid) ∧
       (∀ p, lookupM m.provers resp.prover_id = some p →
          ∃ q, lookupM (verify_proof m now pid2 res).2.provers resp.prover_id = some q ∧
            q.reputation_score = repFormula q.successful_proofs q.total_proofs)) := by
  constructor
  · intro m now resp hok
    rcases submit_proof_cases m now resp with ⟨hf, _⟩ | ⟨request, hreq, hst, hpd, _, hs⟩
    · rw [hok] at hf
      exact Bool.noConfusion hf
    · constructor
      · intro pid hpid
        rw [hs, update_stats_provers]
        exact lookupM_modifyM_ne _ _ (fun he => hpid he.symm)
      · intro p hp
        refine ⟨{ p with
            total_proofs := p.total_proofs + 1
            successful_proofs := p.successful_proofs + 1
            reputation_score := repFormula (p.successful_proofs + 1) (p.total_proofs + 1) },
          ?_, rfl, rfl, Nat.succ_pos _, rfl⟩
        rw [hs, update_stats_provers]
        simp [lookupM_modifyM, hp]
  · intro m now pid2 res resp hresp
    rcases verify_proof_cases m now pid2 res with ⟨_, _, hnone⟩ | ⟨resp0, hsome, _, hs⟩
    · rw [hnone] at hresp
      exact Option.noConfusion hresp
    · have he : resp0 = resp := Option.some.inj (hsome.symm.trans hresp)
      subst he
      constructor
      · intro pid hpid
        rw [hs, update_stats_provers]
        exact lookupM_modifyM_ne _ _ (fun he2 => hpid he2.symm)
      · intro p hp
        refine ⟨{ p with
            successful_proofs :=
              if res.valid then p.successful_proofs else p.successful_proofs - 1
            reputation_score := repFormula
              (if res.valid then p.successful_proofs else p.successful_proofs - 1)
              p.total_proofs }, ?_, rfl⟩
        rw [hs, update_stats_provers]
        simp [lookupM_modifyM, hp]

/-- Witness for the amended C4: bob's profile after the concrete settlement
has both counters bumped to 1 and reputation recomputed from them. -/
theorem C4_witness :
    (submit_proof mAcc 3 (mkResp 7)).1 = Except.ok (mkResp 7).id ∧
    lookupM mAcc.provers "bob" = some proverBob ∧
    (∃ q, lookupM (submit_proof mAcc 3 (mkResp 7)).2.provers (mkResp 7).prover_id = some q ∧
       q.total_proofs = proverBob.total_proofs + 1 ∧
       q.successful_proofs = proverBob.successful_proofs + 1 ∧
       0 < q.total_proofs ∧
       q.reputation_score = repFormula q.successful_proofs q.total_proofs) := by
  refine ⟨rfl, by decide, ?_⟩
  exact (C4_reputation_recomputed.1 mAcc 3 (mkResp 7) rfl).2 proverBob (by decide)
/-! ### Stats recomputation lemmas -/

theorem insertM_ne_nil {α β : Type} [DecidableEq α] (k : α) (v : β) (l : List (α × β)) :
    insertM k v l ≠ [] := by
  cases l with
  | nil => simp [insertM]
  | cons a rest =>
      unfold insertM
      split <;> simp

theorem update_stats_last_updated (now : Nat) (m : Marketplace) :
    (update_stats now m).stats.last_updated = now := rfl

theorem update_stats_total_proofs (now : Nat) (m : Marketplace) :
    (update_stats now m).stats.total_proofs_generated =
      m.stats.total_proofs_generated := by
  unfold update_stats
  split <;> rfl

theorem update_stats_total_volume (now : Nat) (m : Marketplace) :
    (update_stats now m).stats.total_volume = m.stats.total_volume := by
  unfold update_stats
  split <;> rfl

theorem update_stats_average_price (now : Nat) (m : Marketplace) (h : m.responses ≠ []) :
    (update_stats now m).stats.average_price =
      (m.responses.map (fun kv => kv.2.price)).sum / m.responses.length := by
  unfold update_stats
  rw [if_neg (by simpa [List.isEmpty_iff] using h)]

theorem update_stats_average_proof_time (now : Nat) (m : Marketplace)
    (h : m.responses ≠ []) :
    (update_stats now m).stats.average_proof_time =
      (m.responses.map (fun kv => kv.2.generation_time)).sum / m.responses.length := by
  unfold update_stats
  rw [if_neg (by simpa [List.isEmpty_iff] using h)]

theorem update_stats_success_rate (now : Nat) (m : Marketplace) (h : m.responses ≠ []) :
    (update_stats now m).stats.success_rate =
      ((m.responses.filter (fun kv => kv.2.verified)).length : ℚ)
        / (m.responses.length : ℚ) * 100 := by
  unfold update_stats
  rw [if_neg (by simpa [List.isEmpty_iff] using h)]

theorem filter_insertM_single (resp : ProofResponse) (l : List (Uuid × ProofResponse))
    (hnone : ∀ kv ∈ l, kv.2.request_id ≠ resp.request_id) :
    (insertM resp.id resp l).filter (fun kv => kv.2.request_id == resp.request_id) =
      [(resp.id, resp)] := by
  induction l with
  | nil => simp [insertM]
  | cons kv rest ih =>
      have hkv : kv.2.request_id ≠ resp.request_id := hnone kv (List.mem_cons_self _ _)
      unfold insertM
      by_cases h : kv.1 = resp.id
      · rw [if_pos h]
        have hrest : rest.filter (fun kv => kv.2.request_id == resp.request_id) = [] := by
          rw [List.filter_eq_nil]
          intro a ha
          simpa using hnone a (List.mem_cons_of_mem _ ha)
        simp [List.filter_cons, hrest]
      · rw [if_neg h]
        have hrest := ih (fun a ha => hnone a (List.mem_cons_of_mem _ ha))
        simp [List.filter_cons, hkv, hrest]

/-- `mDone` after `submit_request` overwrites request 1 with a fresh
caller-supplied InProgress request. -/
def mOver : Marketplace := applyOp (Op.submitRequest 4 (req1 RequestStatus.InProgress)) mDone

/-- Counterexample to C7 as stated: in the reachable state `mOver` request 1
is InProgress again (after an overwriting resubmission), a second response
with a fresh id is accepted for it, and afterwards two responses exist for
request 1, not exactly one. -/
theorem C7_counterexample :
    Reachable mOver ∧
    get_request_status mOver 1 = some RequestStatus.InProgress ∧
    (mkResp 8).proof_data ≠ [] ∧
    (submit_proof mOver 5 (mkResp 8)).1 = Except.ok 8 ∧
    (responsesFor (submit_proof mOver 5 (mkResp 8)).2 1).length = 2 ∧
    (responsesFor (submit_proof mOver 5 (mkResp 8)).2 1).length ≠ 1 :=
  ⟨⟨0, opsDone ++ [Op.submitRequest 4 (req1 RequestStatus.InProgress)], rfl⟩,
   by decide, by decide, rfl, by decide, by decide⟩

/-- Claim C7 (amended): for a response whose owning request is InProgress,
whose proof bytes are non-empty, and for whose request id no response is yet
recorded, a successful `submit_proof` marks the request Completed, leaves
exactly the submitted response recorded for that request id, increments the
global proof counter by one and the volume by the price, increments the
registered prover's counters and recomputes its reputation, and recomputes
the marketplace statistics from the new response map. -/
theorem C7_submit_proof_spec (m : Marketplace) (now : Nat) (resp : ProofResponse)
    (request : ProofRequest)
    (hreq : lookupM m.requests resp.request_id = some request)
    (hst : request.status = RequestStatus.InProgress)
    (hpd : resp.proof_data ≠ [])
    (hprior : ∀ kv ∈ m.responses, kv.2.request_id ≠ resp.request_id) :
    (submit_proof m now resp).1 = Except.ok resp.id ∧
    get_request_status (submit_proof m now resp).2 resp.request_id =
      some RequestStatus.Completed ∧
    responsesFor (submit_proof m now resp).2 resp.request_id = [resp] ∧
    (submit_proof m now resp).2.stats.total_proofs_generated =
      m.stats.total_proofs_generated + 1 ∧
    (submit_proof m now resp).2.stats.total_volume =
      m.stats.total_volume + resp.price ∧
    (∀ p, lookupM m.provers resp.prover_id = some p →
       ∃ q, lookupM (submit_proof m now resp).2.provers resp.prover_id = some q ∧
         q.total_proofs = p.total_proofs + 1 ∧
         q.successful_proofs = p.successful_proofs + 1 ∧
         q.reputation_score = repFormula q.successful_proofs q.total_proofs) ∧
    (submit_proof m now resp).2.stats.last_updated = now ∧
    (submit_proof m now resp).2.stats.average_price =
      ((submit_proof m now resp).2.responses.map (fun kv => kv.2.price)).sum /
        (submit_proof m now resp).2.responses.length ∧
    (submit_proof m now resp).2.stats.average_proof_time =
      ((submit_proof m now resp).2.responses.map (fun kv => kv.2.generation_time)).sum /
        (submit_proof m now resp).2.responses.length ∧
    (submit_proof m now resp).2.stats.success_rate =
      (((submit_proof m now resp).2.responses.filter (fun kv => kv.2.verified)).length : ℚ) /
        ((submit_proof m now resp).2.responses.length : ℚ) * 100 := by
  have hpd2 : ¬ (resp.proof_data.isEmpty = true) := by
    simpa [List.isEmpty_iff] using hpd
  have hok : (submit_proof m now resp).1.isOk = true := by
    unfold submit_proof
    simp only [hreq]
    rw [if_neg (not_not_intro hst), if_neg hpd2]
    rfl
  rcases submit_proof_cases m now resp with ⟨hf, _⟩ | ⟨request2, _, _, _, hok2, hs⟩
  · rw [hok] at hf
    exact Bool.noConfusion hf
  · have hresps : (submit_proof m now resp).2.responses =
        insertM resp.id resp m.responses := by
      rw [hs, update_stats_responses]
    have hne : (insertM resp.id resp m.responses) ≠ [] := insertM_ne_nil _ _ _
    refine ⟨hok2, ?_, ?_, ?_, ?_, ?_, ?_, ?_, ?_, ?_⟩
    · rw [hs]
      simp [get_request_status, update_stats_requests, lookupM_modifyM, hreq]
    · rw [responsesFor, hresps, filter_insertM_single resp m.responses hprior]
      rfl
    · rw [hs, update_stats_total_proofs]
    · rw [hs, update_stats_total_volume]
    · intro p hp
      refine ⟨{ p with
          total_proofs := p.total_proofs + 1
          successful_proofs := p.successful_proofs + 1
          reputation_score := repFormula (p.successful_proofs + 1) (p.total_proofs + 1) },
        ?_, rfl, rfl, rfl⟩
      rw [hs, update_stats_provers]
      simp [lookupM_modifyM, hp]
    · rw [hs, update_stats_last_updated]
    · rw [hs, update_stats_responses]
      exact update_stats_average_price now _ hne
    · rw [hs, update_stats_responses]
      exact update_stats_average_proof_time now _ hne
    · rw [hs, update_stats_responses]
      exact update_stats_success_rate now _ hne
/-- Witness for the amended C7: settling the concrete response 7 on the
InProgress request 1 completes it and leaves exactly that response recorded. -/
theorem C7_witness :
    lookupM mAcc.requests 1 = some (req1 RequestStatus.InProgress) ∧
    (req1 RequestStatus.InProgress).status = RequestStatus.InProgress ∧
    (mkResp 7).proof_data ≠ [] ∧
    (∀ kv ∈ mAcc.responses, kv.2.request_id ≠ (mkResp 7).request_id) ∧
    (submit_proof mAcc 3 (mkResp 7)).1 = Except.ok (mkResp 7).id ∧
    responsesFor mDone 1 = [mkResp 7] ∧
    get_request_status mDone 1 = some RequestStatus.Completed := by
  have h := C7_submit_proof_spec mAcc 3 (mkResp 7) (req1 RequestStatus.InProgress)
    (by decide) rfl (by decide) (by decide)
  exact ⟨by decide, rfl, by decide, by decide, h.1, h.2.2.1, h.2.1⟩
